import Mathlib

/-!
Formal model of the `seq_grep` repository (`src/grep.py` and `src/ID_finder.py`).

Python strings are modelled as `List Char`.  A compiled regex produced by
`convert_to_regex` in `src/grep.py` is always a concatenation of one-character
pieces (a character class such as `[A|G]`, or a single escaped literal), so it
is embedded as a `List (List Char)`: one entry per piece, holding the literal
characters that piece accepts (for a class, the characters standing between the
brackets — note that `|` inside a regex character class is a literal member).
Matching with `re.IGNORECASE` is case folding on both sides; `re.search` is
unanchored substring search.
-/

namespace SeqGrep

/-- Characters removed by Python `str.strip()` with no argument
(ASCII whitespace: space, tab, newline, carriage return, vertical tab, form feed). -/
def pySpace (c : Char) : Bool :=
  c = ' ' || c = '\t' || c = '\n' || c = '\r' || c = Char.ofNat 11 || c = Char.ofNat 12

/-- Model of Python `str.strip()`: drop whitespace from both ends. -/
def pyStrip (s : List Char) : List Char :=
  ((s.dropWhile pySpace).reverse.dropWhile pySpace).reverse

/-- The `IUPAC_MAP` table of `src/grep.py` (lines 24-29).  For each key the
value is the regex fragment for that base; we record the list of literal
characters the fragment accepts one character from.  `'R': '[A|G]'` is the
character class containing `A`, `|` and `G` (the pipes are literal characters
inside a class), and the unambiguous bases map to themselves. -/
def IUPAC_MAP : Char → Option (List Char)
  | 'R' => some ['A', '|', 'G']
  | 'Y' => some ['C', '|', 'T']
  | 'S' => some ['G', '|', 'C']
  | 'W' => some ['A', '|', 'T']
  | 'K' => some ['G', '|', 'T']
  | 'M' => some ['A', '|', 'C']
  | 'B' => some ['C', '|', 'G', '|', 'T']
  | 'D' => some ['A', '|', 'G', '|', 'T']
  | 'H' => some ['A', '|', 'C', '|', 'T']
  | 'V' => some ['A', '|', 'C', '|', 'G']
  | 'N' => some ['A', '|', 'C', '|', 'G', '|', 'T']
  | 'A' => some ['A']
  | 'C' => some ['C']
  | 'G' => some ['G']
  | 'T' => some ['T']
  | _ => none

/-- Model of `convert_to_regex` (`src/grep.py` lines 51-59): every character is
translated through `IUPAC_MAP` keyed on its upper-case form; unrecognized
characters become `re.escape`d literals, i.e. one-character pieces accepting
exactly that character. -/
def convert_to_regex (s : List Char) : List (List Char) :=
  s.map (fun c => (IUPAC_MAP c.toUpper).getD [c])

/-- One regex piece accepting character `d` under `re.IGNORECASE`
(case folding on both sides). -/
def classMatch (cls : List Char) (d : Char) : Bool :=
  cls.any (fun a => a.toLower == d.toLower)

/-- A compiled pattern matches at the head of `s`: each one-character piece
accepts the corresponding character. -/
def matchesAt : List (List Char) → List Char → Bool
  | [], _ => true
  | _ :: _, [] => false
  | cls :: pat, d :: s => classMatch cls d && matchesAt pat s

/-- Model of `compiled_pattern.search(s)`: unanchored substring search. -/
def patSearch (pat : List (List Char)) : List Char → Bool
  | [] => matchesAt pat []
  | s@(_ :: rest) => matchesAt pat s || patSearch pat rest

/-- The `IUPAC_COMPLEMENT` table of `src/grep.py` (lines 32-37). -/
def IUPAC_COMPLEMENT : Char → Option Char
  | 'A' => some 'T'
  | 'T' => some 'A'
  | 'C' => some 'G'
  | 'G' => some 'C'
  | 'R' => some 'Y'
  | 'Y' => some 'R'
  | 'S' => some 'S'
  | 'W' => some 'W'
  | 'K' => some 'M'
  | 'M' => some 'K'
  | 'B' => some 'V'
  | 'D' => some 'H'
  | 'H' => some 'D'
  | 'V' => some 'B'
  | 'N' => some 'N'
  | _ => none

/-- Model of `get_complement_base` (`src/grep.py` lines 41-43):
`IUPAC_COMPLEMENT.get(base.upper(), base)`. -/
def get_complement_base (c : Char) : Char :=
  (IUPAC_COMPLEMENT c.toUpper).getD c

/-- Model of `reverse_complement_sequence` (`src/grep.py` lines 45-48):
complement every base, then reverse. -/
def reverse_complement_sequence (s : List Char) : List Char :=
  (s.map get_complement_base).reverse

/-- The supported IUPAC alphabet: the key set of `IUPAC_COMPLEMENT`
(equivalently of `IUPAC_MAP`). -/
def iupacAlphabet : List Char :=
  ['A', 'C', 'G', 'T', 'R', 'Y', 'S', 'W', 'K', 'M', 'B', 'D', 'H', 'V', 'N']

/-- A configured search term: the raw term text and its compiled patterns
(forward pattern, plus the reverse-complement pattern when enabled).  Mirrors
the `required_matches` entries built in `__main__` of `src/grep.py`
(lines 437-463); the colour code and the mutable `total_individual_count` are
modelled separately (colour is irrelevant to counts, the counter is threaded
as explicit state). -/
structure SearchTerm where
  term : List Char
  patterns : List (List (List Char))
deriving DecidableEq

/-- Model of the term construction in `__main__` (`src/grep.py` lines 445-456):
`pattern_strings = [convert_to_regex(term)]`, plus the reverse-complement
pattern when `--reverse_complement` is set. -/
def mkTerm (t : List Char) (rc : Bool) : SearchTerm :=
  ⟨t, if rc then [convert_to_regex t, convert_to_regex (reverse_complement_sequence t)]
      else [convert_to_regex t]⟩

/-- A term hits a (stripped) sequence line iff any of its compiled patterns
finds an occurrence — the inner `for p_compiled in match_data['compiled_patterns']`
loop with early `break` (`src/grep.py` lines 122-125 and 303-306). -/
def termHits (t : SearchTerm) (s : List Char) : Bool :=
  t.patterns.any (fun p => patSearch p s)

/-- Python dict assignment `d[k] = v`: overwrite in place if the key exists
(keeping its original position), otherwise append. -/
def dictInsert (k : List Char) (v : Nat) : List (List Char × Nat) → List (List Char × Nat)
  | [] => [(k, v)]
  | (k', v') :: rest =>
    if k' = k then (k', v) :: rest else (k', v') :: dictInsert k v rest

/-- The dict comprehension `{m['term']: 0 for m in required_matches_lite}`
(`src/grep.py` line 103): keys in first-insertion order, duplicates collapse. -/
def initCounts (ts : List SearchTerm) : List (List Char × Nat) :=
  ts.foldl (fun d t => dictInsert t.term 0 d) []

/-- Python `d[k] += 1` on a dict modelled as an association list (the key is
always present when the worker uses it). -/
def incKey (k : List Char) : List (List Char × Nat) → List (List Char × Nat)
  | [] => []
  | (k', v) :: rest =>
    if k' = k then (k', v + 1) :: rest else (k', v) :: incKey k rest

/-- The per-record body of `_search_read_batch` (`src/grep.py` lines 114-131):
walk the configured terms in order; a hitting term bumps the dict entry for its
term string, a missing term clears the full-match flag. -/
def recordStep : List SearchTerm → List Char → List (List Char × Nat) → Bool × List (List Char × Nat)
  | [], _, d => (true, d)
  | t :: ts, s, d =>
    let hit := termHits t s
    let r := recordStep ts s (if hit then incKey t.term d else d)
    (hit && r.1, r.2)

/-- The record loop of `_search_read_batch` (`src/grep.py` lines 114-134):
returns the header ids of the full matches (in batch order; the highlighted
text is not modelled) together with the final per-term-string hit dict. -/
def batchLoop (ts : List SearchTerm) :
    List (List Char × List Char) → List (List Char × Nat) → List (List Char) × List (List Char × Nat)
  | [], d => ([], d)
  | r :: rest, d =>
    let p := recordStep ts (pyStrip r.2) d
    let q := batchLoop ts rest p.2
    (if p.1 then r.1 :: q.1 else q.1, q.2)

/-- Model of the worker `_search_read_batch` (`src/grep.py` lines 87-136). -/
def searchReadBatch (batch : List (List Char × List Char)) (ts : List SearchTerm) :
    List (List Char) × List (List Char × Nat) :=
  batchLoop ts batch (initCounts ts)

/-- Header-id extraction of `_read_fastq_batches` (`src/grep.py` lines 154-156):
strip the line; if it starts with `@`, its first whitespace-delimited token,
otherwise the string `"Unknown"`. -/
def headerId (l : List Char) : List Char :=
  let h := pyStrip l
  if h.head? = some '@' then h.takeWhile (fun c => !pySpace c) else "Unknown".data

/-- Record extraction of `_read_fastq_batches` (`src/grep.py` lines 140-164):
`islice(f, 4)` grabs up to four lines; an empty slice ends the stream, and a
slice of 2 or 3 lines still produces a record from `lines[0]`/`lines[1]`.
A slice of exactly one line evaluates `lines[1]` out of range — an
`IndexError`, modelled as `none`.  Batching into `BATCH_SIZE` groups is applied
separately (`toBatches`); record order is file order. -/
def readRecords : List (List Char) → Option (List (List Char × List Char))
  | [] => some []
  | [_] => none
  | [l1, l2] => some [(headerId l1, l2)]
  | [l1, l2, _] => some [(headerId l1, l2)]
  | l1 :: l2 :: _ :: _ :: rest =>
    (readRecords rest).map (fun rs => (headerId l1, l2) :: rs)

/-- The batch size constant of `src/grep.py` (line 19). -/
def BATCH_SIZE : Nat := 50000

/-- Worker loop for `toBatches`: `k` is the remaining capacity of the current
batch (the `for _ in range(batch_size)` loop of `_read_fastq_batches`), `acc`
the current batch in reverse order. -/
def toBatchesGo : Nat → List (List Char × List Char) → List (List Char × List Char) →
    List (List (List Char × List Char))
  | _, acc, [] => if acc.isEmpty then [] else [acc.reverse]
  | k, acc, r :: rest =>
    if k ≤ 1 then ((r :: acc).reverse) :: toBatchesGo BATCH_SIZE [] rest
    else toBatchesGo (k - 1) (r :: acc) rest

/-- Grouping of the record stream into batches of up to `BATCH_SIZE` records
(`src/grep.py` lines 144-164: one yielded batch per `batch_size` quadruples,
the final batch possibly partial, no empty batch for an empty stream). -/
def toBatches (l : List (List Char × List Char)) : List (List (List Char × List Char)) :=
  toBatchesGo BATCH_SIZE [] l

/-- The aggregation inner loop of `_process_reads_in_parallel`
(`src/grep.py` lines 218-222): add a worker count to the first
`required_matches` entry with the matching term string. -/
def addToFirst (k : List Char) (c : Nat) : List (SearchTerm × Nat) → List (SearchTerm × Nat)
  | [] => []
  | (t, v) :: rest =>
    if t.term = k then (t, v + c) :: rest else (t, v) :: addToFirst k c rest

/-- Merging one worker dict into the driver's `required_matches` counters:
the outer `for term, count in individual_hits_counts.items()` loop of
`_process_reads_in_parallel` (`src/grep.py` lines 218-222). -/
def mergeDict : List (SearchTerm × Nat) → List (List Char × Nat) → List (SearchTerm × Nat)
  | st, [] => st
  | st, kv :: d => mergeDict (addToFirst kv.1 kv.2 st) d

/-- The driver's collection loop (`src/grep.py` lines 213-232): per completed
batch, add the worker's full-match count to `found_count` and merge its hit
dict.  Completion (arrival) order is modelled as submission order; the merged
totals are sums, hence independent of the order in which `as_completed`
delivers results. -/
def parallelAgg (ts : List SearchTerm) :
    List (List (List Char × List Char)) → Nat × List (SearchTerm × Nat) → Nat × List (SearchTerm × Nat)
  | [], acc => acc
  | b :: bs, acc =>
    let w := searchReadBatch b ts
    parallelAgg ts bs (acc.1 + w.1.length, mergeDict acc.2 w.2)

/-- Fresh `required_matches` state: every counter starts at
`'total_individual_count': 0` (`src/grep.py` line 462). -/
def zeroState (ts : List SearchTerm) : List (SearchTerm × Nat) :=
  ts.map (fun t => (t, 0))

/-- Aggregate counts of a parallel run `_process_reads_in_parallel`
(`src/grep.py` lines 167-254) on the lines of an existing file: reads
processed (total submitted records), full-match count, per-term counters.
When the batch generator raises (one trailing line), the generic handler at
lines 252-254 returns `(0, 0)` before any aggregation ran. -/
def parallelRunCounts (lines : List (List Char)) (ts : List SearchTerm) :
    Nat × Nat × List Nat :=
  match readRecords lines with
  | none => (0, 0, ts.map (fun _ => 0))
  | some recs =>
    let r := parallelAgg ts (toBatches recs) (0, zeroState ts)
    (recs.length, r.1, r.2.map (fun p => p.2))

/-- The per-entry loop of the sequential strategy on one sequence line
(`src/grep.py` lines 298-311): each hitting entry bumps its own
`total_individual_count`; a missing entry clears the full-match flag. -/
def seqStepTerms (s : List Char) : List (SearchTerm × Nat) → Bool × List (SearchTerm × Nat)
  | [] => (true, [])
  | (t, c) :: rest =>
    let hit := termHits t s
    let r := seqStepTerms s rest
    (hit && r.1, (t, if hit then c + 1 else c) :: r.2)

/-- The line loop of `_grep_and_highlight_sequential` (`src/grep.py` lines
277-324): count lines; every line whose 1-based number is `2 mod 4` is
stripped and matched, bumping `found_count` on a full match.  Header tracking
(lines 282-286) only affects the printed id, not any count, and is omitted.
Returns (final line number, found count, final term states). -/
def seqLoop : List (List Char) → Nat → Nat → List (SearchTerm × Nat) → Nat × Nat × List (SearchTerm × Nat)
  | [], n, f, st => (n, f, st)
  | l :: rest, n, f, st =>
    if (n + 1) % 4 = 2 then
      let r := seqStepTerms (pyStrip l) st
      seqLoop rest (n + 1) (if r.1 then f + 1 else f) r.2
    else
      seqLoop rest (n + 1) f st

/-- Aggregate counts of a sequential run `_grep_and_highlight_sequential`
(`src/grep.py` lines 257-329) on the lines of an existing file:
`final_reads_processed = line_number // 4`, found count, per-term counters. -/
def seqRunCounts (lines : List (List Char)) (ts : List SearchTerm) :
    Nat × Nat × List Nat :=
  let r := seqLoop lines 0 0 (zeroState ts)
  (r.1 / 4, r.2.1, r.2.2.map (fun p => p.2))

/-- Sequential strategy over an `Option`al file: `none` models a missing input
path, handled by the `except FileNotFoundError` branch (`src/grep.py` lines
331-333), which prints an error and returns `(0, 0)` with the term counters
untouched (still zero).  The Boolean records that the error was reported. -/
def seqRunFile (file : Option (List (List Char))) (ts : List SearchTerm) :
    (Nat × Nat × List Nat) × Bool :=
  match file with
  | none => ((0, 0, ts.map (fun _ => 0)), true)
  | some lines => (seqRunCounts lines ts, false)

/-- Parallel strategy over an `Option`al file: `none` models a missing input
path (`except FileNotFoundError`, `src/grep.py` lines 249-251); a stream whose
reader raises (`readRecords = none`) hits the generic handler at lines 252-254.
Both report an error and return zero counts. -/
def parallelRunFile (file : Option (List (List Char))) (ts : List SearchTerm) :
    (Nat × Nat × List Nat) × Bool :=
  match file with
  | none => ((0, 0, ts.map (fun _ => 0)), true)
  | some lines =>
    match readRecords lines with
    | none => ((0, 0, ts.map (fun _ => 0)), true)
    | some _ => (parallelRunCounts lines ts, false)

/-- Reference predicate: a record is a full match iff every configured term
hits (logical AND across terms). -/
def fullMatchB (ts : List SearchTerm) (s : List Char) : Bool :=
  ts.all (fun t => termHits t s)

/-- Reference per-term hit counts over a list of (stripped) sequence lines. -/
def hitCounts (ts : List SearchTerm) (seqs : List (List Char)) : List Nat :=
  ts.map (fun t => (seqs.filter (fun s => termHits t s)).length)

/-- Reference full-match count over a list of (stripped) sequence lines. -/
def fullCount (ts : List SearchTerm) (seqs : List (List Char)) : Nat :=
  (seqs.filter (fullMatchB ts)).length

/-- The stripped sequence lines (second line of each complete quadruple) of an
archive. -/
def seqLines : List (List Char) → List (List Char)
  | _ :: b :: _ :: _ :: rest => pyStrip b :: seqLines rest
  | _ => []

/-- The stripped sequence lines of a batch of records (the worker strips each
`sequence_line` before matching, `src/grep.py` line 115). -/
def batchSeqs (batch : List (List Char × List Char)) : List (List Char) :=
  batch.map (fun r => pyStrip r.2)

/-- Fixture: the search term compiled from raw text `ACGT` without reverse
complement. -/
def exTermACGT : SearchTerm := mkTerm "ACGT".data false

/-- Fixture: two distinct terms `AC` and `GT`. -/
def exTermsTwo : List SearchTerm := [mkTerm "AC".data false, mkTerm "GT".data false]

/-- Fixture: a truncated archive of two lines (one header, one sequence). -/
def exLines2 : List (List Char) := ["@r\n".data, "ACGT\n".data]

/-- Fixture: one complete quadruple followed by a truncated two-line record. -/
def exLines6 : List (List Char) :=
  ["@r\n".data, "ACGT\n".data, "+\n".data, "IIII\n".data, "@s\n".data, "ACGT\n".data]

/-- Fixture: a well-formed archive of two complete quadruples. -/
def exLines8 : List (List Char) :=
  ["@r\n".data, "ACGT\n".data, "+\n".data, "IIII\n".data,
   "@s\n".data, "TTTT\n".data, "+\n".data, "IIII\n".data]

/-- True when an identifier ends in the mate-pair tag `/1` or `/2`
(the `read_suffix_regex` of `src/ID_finder.py`, line 26). -/
def endsWithMate (s : List Char) : Bool :=
  match s.reverse with
  | '1' :: '/' :: _ => true
  | '2' :: '/' :: _ => true
  | _ => false

/-- Model of `read_suffix_regex.sub('', id)`: remove one trailing `/1`/`/2`. -/
def stripMateSuffix (s : List Char) : List Char :=
  if endsWithMate s then s.take (s.length - 2) else s

/-- Normalization of one target identifier (`src/ID_finder.py` lines 41-46):
drop a leading `@` when present, then the mate-pair tag. -/
def normalizeTarget (s : List Char) : List Char :=
  stripMateSuffix (if s.head? = some '@' then s.tail else s)

/-- Python set insertion determinized as first-occurrence order (the claims
are stated through per-identifier lookup, never through row order, because
CPython's set iteration order is unspecified). -/
def dedupFirst : List (List Char) → List (List Char)
  | [] => []
  | k :: rest => k :: (dedupFirst rest).filter (fun k' => k' != k)

/-- Loading of `target_ids` (`src/ID_finder.py` lines 33-47): strip each line,
skip empties, normalize, collect into a set. -/
def loadTargets (idLines : List (List Char)) : List (List Char) :=
  dedupFirst (idLines.filterMap (fun l =>
    let t := pyStrip l
    if t.isEmpty then none else some (normalizeTarget t)))

/-- The `id_regex` extraction (`src/ID_finder.py` lines 23 and 94-98): from a
header starting with `@`, the maximal run of non-space/non-tab characters
after the marker, then stripped; no match when that run is empty. -/
def extractHeaderId (line : List Char) : Option (List Char) :=
  match line with
  | '@' :: rest =>
    let tok := rest.takeWhile (fun c => !(c == ' ') && !(c == '\t'))
    if tok.isEmpty then none else some (pyStrip tok)
  | _ => none

/-- Characters terminating a barcode value: comma or regex whitespace
(`barcode_regex`, `src/ID_finder.py` line 30). -/
def barcodeStop (c : Char) : Bool := c == ',' || pySpace c

/-- The literal key scanned for by `barcode_regex`. -/
def barcodeKey : List Char := "barcode=".data

/-- Model of `barcode_regex.search(line)`: the first position where
`barcode=` occurs immediately followed by at least one non-stop character;
the captured value is the maximal run of non-stop characters there
(`group(1).strip()` — stripping is a no-op on such a run but kept). -/
def findBarcode : List Char → Option (List Char)
  | [] => none
  | s@(_ :: rest) =>
    if barcodeKey.isPrefixOf s &&
        !((s.drop 8).takeWhile (fun c => !(barcodeStop c))).isEmpty then
      some (pyStrip ((s.drop 8).takeWhile (fun c => !(barcodeStop c))))
    else findBarcode rest

/-- Python dict value overwrite `results[read_id] = barcode_value`
(the key is always present). -/
def setKey (k v : List Char) : List (List Char × List Char) → List (List Char × List Char)
  | [] => []
  | (k', v') :: rest =>
    if k' = k then (k', v) :: rest else (k', v') :: setKey k v rest

/-- The per-file line loop of `search_barcodes` (`src/ID_finder.py` lines
90-115): 1-based line numbering; a header line (position 1 mod 4, starting
with `@`) is parsed, and when its normalized id is still wanted, the barcode
value (default `NA`) is recorded and the id leaves the remaining set. -/
def scanFile : List (List Char) → Nat → List (List Char × List Char) → List (List Char) →
    List (List Char × List Char) × List (List Char)
  | [], _, results, remaining => (results, remaining)
  | line :: rest, n, results, remaining =>
    if n % 4 = 1 ∧ line.head? = some '@' then
      match extractHeaderId line with
      | none => scanFile rest (n + 1) results remaining
      | some ex =>
        if stripMateSuffix ex ∈ remaining then
          scanFile rest (n + 1)
            (setKey (stripMateSuffix ex) ((findBarcode line).getD "NA".data) results)
            (remaining.erase (stripMateSuffix ex))
        else scanFile rest (n + 1) results remaining
    else scanFile rest (n + 1) results remaining

/-- The archive loop with its early exit once every target was found
(`src/ID_finder.py` lines 76-79); the filename plays no role in matching. -/
def scanFiles : List (List Char × List (List Char)) → List (List Char × List Char) →
    List (List Char) → List (List Char × List Char) × List (List Char)
  | [], results, remaining => (results, remaining)
  | (_, fl) :: fs, results, remaining =>
    if remaining.isEmpty then (results, remaining)
    else
      let r := scanFile fl 1 results remaining
      scanFiles fs r.1 r.2

/-- Model of `search_barcodes` (`src/ID_finder.py` lines 11-142) as a function
from the id-file lines and the directory's (filename, lines) archives to the
rows written to the output file (header row omitted); `none` models the early
return at lines 52-54 where no output file is written at all. -/
def search_barcodes (idLines : List (List Char))
    (files : List (List Char × List (List Char))) :
    Option (List (List Char × List Char)) :=
  let targets := loadTargets idLines
  if targets.isEmpty then none
  else
    let fin := scanFiles files (targets.map (fun id => (id, "NA".data))) targets
    some (targets.map (fun id => ('@' :: id, (fin.1.lookup id).getD "NA".data)))

/-- C3: for every sequence over the supported IUPAC alphabet, applying
`reverse_complement_sequence` twice returns the original string exactly. -/
theorem revcomp_involution (s : List Char) (h : ∀ c ∈ s, c ∈ iupacAlphabet) :
    reverse_complement_sequence (reverse_complement_sequence s) = s := by
  have hcc : ∀ c ∈ s, get_complement_base (get_complement_base c) = c := by
    intro c hc
    have hc' := h c hc
    simp only [iupacAlphabet, List.mem_cons, List.not_mem_nil, or_false] at hc'
    rcases hc' with rfl | rfl | rfl | rfl | rfl | rfl | rfl | rfl | rfl | rfl | rfl | rfl |
      rfl | rfl | rfl <;> rfl
  calc reverse_complement_sequence (reverse_complement_sequence s)
      = s.map (fun c => get_complement_base (get_complement_base c)) := by
        simp [reverse_complement_sequence, List.map_reverse, List.map_map, Function.comp]
    _ = s := by
        rw [List.map_congr_left hcc]
        simp

/-- Witness for C3 at the concrete sequence `ACGTNR`. -/
theorem revcomp_involution_witness :
    (∀ c ∈ (['A', 'C', 'G', 'T', 'N', 'R'] : List Char), c ∈ iupacAlphabet) ∧
    reverse_complement_sequence
      (reverse_complement_sequence ['A', 'C', 'G', 'T', 'N', 'R']) =
      ['A', 'C', 'G', 'T', 'N', 'R'] :=
  ⟨by decide, revcomp_involution ['A', 'C', 'G', 'T', 'N', 'R'] (by decide)⟩

/-- C2 (evaluation at the failing input): the compiled pattern for the
ambiguity code `R` (regex `[A|G]`) also matches the character `|`, which is
outside its documented base set `{A, G}` — a pipe inside a regex character
class is a literal member, not an alternation operator.  The same holds for
`N` (`[A|C|G|T]`).  The positive half of the claim does hold: `N` matches each
of `A, C, G, T` and their lower-case forms. -/
theorem ambiguity_code_matches_pipe :
    patSearch (convert_to_regex ['R']) ['|'] = true ∧
    patSearch (convert_to_regex ['N']) ['|'] = true ∧
    ('|' ∉ (['A', 'G'] : List Char)) ∧
    (['a', 'c', 'g', 't', 'A', 'C', 'G', 'T'].all
      (fun c => patSearch (convert_to_regex ['N']) [c]) = true) := by
  decide

theorem seqStepTerms_spec (s : List Char) (st : List (SearchTerm × Nat)) :
    seqStepTerms s st =
      (st.all (fun p => termHits p.1 s),
       st.map (fun p => (p.1, p.2 + if termHits p.1 s then 1 else 0))) := by
  induction st with
  | nil => rfl
  | cons p rest ih =>
    obtain ⟨t, c⟩ := p
    simp only [seqStepTerms, ih, List.all_cons, List.map_cons]
    by_cases h : termHits t s <;> simp [h]

theorem all_over_mapped (q : List (SearchTerm × Nat)) (f : SearchTerm × Nat → Nat)
    (s : List Char) :
    (q.map (fun p => (p.1, f p))).all (fun p => termHits p.1 s) =
      q.all (fun p => termHits p.1 s) := by
  induction q with
  | nil => rfl
  | cons p rest ih => simp [ih]

theorem all_zero_map (ts : List SearchTerm) (s : List Char) :
    ((ts.map (fun t => (t, (0 : Nat)))).all (fun p => termHits p.1 s)) =
      ts.all (fun t => termHits t s) := by
  induction ts with
  | nil => rfl
  | cons t rest ih => simp [ih]

theorem seqLines_length : ∀ lines : List (List Char),
    (seqLines lines).length = lines.length / 4
  | [] => by simp [seqLines]
  | [a] => by simp [seqLines]
  | [a, b] => by simp [seqLines]
  | [a, b, c] => by simp [seqLines]
  | a :: b :: c :: d :: rest => by
    simp only [seqLines, List.length_cons, seqLines_length rest]
    omega

theorem readRecords_complete : ∀ lines : List (List Char), 4 ∣ lines.length →
    ∃ recs, readRecords lines = some recs ∧
      recs.map (fun r => pyStrip r.2) = seqLines lines ∧
      recs.length = lines.length / 4
  | [], _ => by
    refine ⟨[], ?_, rfl, rfl⟩
    simp [readRecords]
  | [a], h => by simp only [List.length_cons, List.length_nil] at h; omega
  | [a, b], h => by simp only [List.length_cons, List.length_nil] at h; omega
  | [a, b, c], h => by simp only [List.length_cons, List.length_nil] at h; omega
  | a :: b :: c :: d :: rest, h => by
    have hrest : 4 ∣ rest.length := by
      simp only [List.length_cons] at h
      omega
    obtain ⟨recs, h1, h2, h3⟩ := readRecords_complete rest hrest
    refine ⟨(headerId a, b) :: recs, ?_, ?_, ?_⟩
    · simp [readRecords, h1]
    · simp [seqLines, h2]
    · simp only [List.length_cons, h3]
      omega

theorem seqLoop_spec : ∀ lines : List (List Char), 4 ∣ lines.length →
    ∀ (n f : Nat) (st : List (SearchTerm × Nat)), n % 4 = 0 →
    seqLoop lines n f st =
      (n + lines.length,
       f + ((seqLines lines).filter (fun s => st.all (fun p => termHits p.1 s))).length,
       st.map (fun p =>
         (p.1, p.2 + ((seqLines lines).filter (fun s => termHits p.1 s)).length)))
  | [], _, n, f, st, _ => by simp [seqLoop, seqLines]
  | [a], h, _, _, _, _ => by simp only [List.length_cons, List.length_nil] at h; omega
  | [a, b], h, _, _, _, _ => by simp only [List.length_cons, List.length_nil] at h; omega
  | [a, b, c], h, _, _, _, _ => by simp only [List.length_cons, List.length_nil] at h; omega
  | a :: b :: c :: d :: rest, h, n, f, st, hn => by
    have hrest : 4 ∣ rest.length := by
      simp only [List.length_cons] at h
      omega
    have h1 : ¬ (n + 1) % 4 = 2 := by omega
    have h2 : (n + 1 + 1) % 4 = 2 := by omega
    have h3 : ¬ (n + 1 + 1 + 1) % 4 = 2 := by omega
    have h4 : ¬ (n + 1 + 1 + 1 + 1) % 4 = 2 := by omega
    simp only [seqLoop, eq_false h1, eq_true h2, eq_false h3, eq_false h4, if_true, if_false,
      seqStepTerms_spec]
    rw [seqLoop_spec rest hrest (n + 1 + 1 + 1 + 1)
      (if st.all (fun p => termHits p.1 (pyStrip b)) then f + 1 else f)
      (st.map (fun p => (p.1, p.2 + if termHits p.1 (pyStrip b) then 1 else 0)))
      (by omega)]
    have hall : ∀ s : List Char,
        (st.map (fun p => (p.1, p.2 + if termHits p.1 (pyStrip b) then 1 else 0))).all
          (fun p => termHits p.1 s) = st.all (fun p => termHits p.1 s) := fun s =>
      all_over_mapped st (fun p => p.2 + if termHits p.1 (pyStrip b) then 1 else 0) s
    refine Prod.ext ?_ (Prod.ext ?_ ?_)
    · simp only [List.length_cons]
      omega
    · simp only [seqLines, hall, List.filter_cons]
      cases hA : st.all (fun p => termHits p.1 (pyStrip b)) <;> simp [hA] <;> omega
    · simp only [seqLines, List.map_map, Function.comp_def]
      refine List.map_congr_left ?_
      intro p _
      simp only [List.filter_cons]
      cases hB : termHits p.1 (pyStrip b) <;> simp [hB] <;> omega

theorem seqRun_spec (lines : List (List Char)) (ts : List SearchTerm)
    (h : 4 ∣ lines.length) :
    seqRunCounts lines ts =
      (lines.length / 4, fullCount ts (seqLines lines), hitCounts ts (seqLines lines)) := by
  unfold seqRunCounts
  rw [seqLoop_spec lines h 0 0 (zeroState ts) (by omega)]
  refine Prod.ext ?_ (Prod.ext ?_ ?_)
  · simp
  · have hp : ∀ s : List Char,
        ((ts.map (fun t => (t, (0 : Nat)))).all (fun p => termHits p.1 s)) = fullMatchB ts s :=
      fun s => all_zero_map ts s
    simp only [zeroState, fullCount, hp, Nat.zero_add]
  · simp [zeroState, hitCounts, List.map_map, Function.comp_def]

theorem all_fst (q : List (SearchTerm × Nat)) (s : List Char) :
    (q.map Prod.fst).all (fun t => termHits t s) = q.all (fun p => termHits p.1 s) := by
  induction q with
  | nil => rfl
  | cons p rest ih => simp [ih]

theorem recordStep_skip : ∀ (ts : List SearchTerm) (s k : List Char) (v : Nat)
    (d : List (List Char × Nat)), k ∉ ts.map (fun t => t.term) →
    recordStep ts s ((k, v) :: d) =
      ((recordStep ts s d).1, (k, v) :: (recordStep ts s d).2)
  | [], _, _, _, _, _ => rfl
  | t :: ts, s, k, v, d, hk => by
    simp only [List.map_cons, List.mem_cons, not_or] at hk
    obtain ⟨hne, hnotin⟩ := hk
    cases hit : termHits t s with
    | true =>
      have hinc : incKey t.term ((k, v) :: d) = (k, v) :: incKey t.term d := by
        simp [incKey, hne]
      simp [recordStep, hit, hinc, recordStep_skip ts s k v (incKey t.term d) hnotin]
    | false =>
      simp [recordStep, hit, recordStep_skip ts s k v d hnotin]

theorem recordStep_dict : ∀ (q : List (SearchTerm × Nat)) (s : List Char),
    (q.map (fun p => p.1.term)).Nodup →
    recordStep (q.map Prod.fst) s (q.map (fun p => (p.1.term, p.2))) =
      (q.all (fun p => termHits p.1 s),
       q.map (fun p => (p.1.term, p.2 + if termHits p.1 s then 1 else 0)))
  | [], _, _ => rfl
  | (t, c) :: q, s, hnd => by
    simp only [List.map_cons, List.nodup_cons] at hnd
    obtain ⟨hni, hnd'⟩ := hnd
    have hni' : t.term ∉ (q.map Prod.fst).map (fun t => t.term) := by
      simpa [List.map_map, Function.comp_def] using hni
    cases hit : termHits t s with
    | true =>
      have hinc : incKey t.term ((t.term, c) :: q.map (fun p => (p.1.term, p.2))) =
          (t.term, c + 1) :: q.map (fun p => (p.1.term, p.2)) := by
        simp [incKey]
      simp [recordStep, hit, hinc,
        recordStep_skip (q.map Prod.fst) s t.term (c + 1) (q.map (fun p => (p.1.term, p.2))) hni',
        recordStep_dict q s hnd']
    | false =>
      simp [recordStep, hit,
        recordStep_skip (q.map Prod.fst) s t.term c (q.map (fun p => (p.1.term, p.2))) hni',
        recordStep_dict q s hnd']

theorem dictInsert_fresh : ∀ (d : List (List Char × Nat)) (k : List Char) (v : Nat),
    k ∉ d.map Prod.fst → dictInsert k v d = d ++ [(k, v)]
  | [], _, _, _ => rfl
  | (k', v') :: d, k, v, hk => by
    simp only [List.map_cons, List.mem_cons, not_or] at hk
    have hne : ¬ k' = k := fun h => hk.1 h.symm
    simp only [dictInsert, if_neg hne, List.cons_append,
      dictInsert_fresh d k v hk.2]

theorem initCounts_go : ∀ (ts : List SearchTerm) (d : List (List Char × Nat)),
    (∀ t ∈ ts, t.term ∉ d.map Prod.fst) → (ts.map (fun t => t.term)).Nodup →
    ts.foldl (fun d t => dictInsert t.term 0 d) d = d ++ ts.map (fun t => (t.term, 0))
  | [], d, _, _ => by simp
  | t :: ts, d, hf, hnd => by
    simp only [List.map_cons, List.nodup_cons] at hnd
    obtain ⟨hni, hnd'⟩ := hnd
    simp only [List.foldl_cons]
    rw [dictInsert_fresh d t.term 0 (hf t (List.mem_cons_self t ts))]
    rw [initCounts_go ts (d ++ [(t.term, 0)]) ?_ hnd']
    · simp
    · intro t' ht'
      simp only [List.map_append, List.mem_append, List.map_cons, List.map_nil,
        List.mem_singleton, not_or]
      refine ⟨hf t' (List.mem_cons_of_mem t ht'), ?_⟩
      intro he
      exact hni (he ▸ List.mem_map_of_mem (fun t => t.term) ht')

theorem initCounts_nodup (ts : List SearchTerm) (hnd : (ts.map (fun t => t.term)).Nodup) :
    initCounts ts = ts.map (fun t => (t.term, 0)) := by
  have := initCounts_go ts [] (by simp) hnd
  simpa [initCounts] using this

theorem addToFirst_skip (k : List Char) (c : Nat) (x : SearchTerm × Nat)
    (st : List (SearchTerm × Nat)) (h : x.1.term ≠ k) :
    addToFirst k c (x :: st) = x :: addToFirst k c st := by
  obtain ⟨t, v⟩ := x
  simp only [addToFirst, if_neg h]

theorem mergeDict_skip : ∀ (d : List (List Char × Nat)) (x : SearchTerm × Nat)
    (st : List (SearchTerm × Nat)), (∀ kv ∈ d, kv.1 ≠ x.1.term) →
    mergeDict (x :: st) d = x :: mergeDict st d
  | [], _, _, _ => rfl
  | kv :: d, x, st, h => by
    simp only [mergeDict]
    rw [addToFirst_skip kv.1 kv.2 x st (fun he => h kv (List.mem_cons_self kv d) he.symm)]
    exact mergeDict_skip d x (addToFirst kv.1 kv.2 st)
      (fun kv' hkv' => h kv' (List.mem_cons_of_mem kv hkv'))

theorem mergeDict_dict : ∀ (st w : List (SearchTerm × Nat)),
    st.map Prod.fst = w.map Prod.fst →
    (st.map (fun p => p.1.term)).Nodup →
    mergeDict st (w.map (fun p => (p.1.term, p.2))) =
      List.zipWith (fun (p q : SearchTerm × Nat) => (p.1, p.2 + q.2)) st w
  | [], [], _, _ => rfl
  | [], q :: w, hfst, _ => by simp at hfst
  | p :: st, [], hfst, _ => by simp at hfst
  | p :: st, q :: w, hfst, hnd => by
    simp only [List.map_cons, List.cons.injEq] at hfst
    obtain ⟨hpq, hfst'⟩ := hfst
    simp only [List.map_cons, List.nodup_cons] at hnd
    obtain ⟨hni, hnd'⟩ := hnd
    simp only [List.map_cons, mergeDict]
    have h1 : addToFirst q.1.term q.2 (p :: st) = (p.1, p.2 + q.2) :: st := by
      obtain ⟨t, v⟩ := p
      simp only [addToFirst]
      rw [if_pos]
      simp only at hpq
      rw [hpq]
    rw [h1]
    rw [mergeDict_skip (w.map (fun p => (p.1.term, p.2))) (p.1, p.2 + q.2) st ?_]
    · rw [mergeDict_dict st w hfst' hnd']
      simp
    · intro kv hkv
      simp only [List.mem_map] at hkv
      obtain ⟨p', hp', rfl⟩ := hkv
      intro he
      apply hni
      rw [← he]
      have : p'.1 ∈ w.map Prod.fst := List.mem_map_of_mem Prod.fst hp'
      rw [← hfst'] at this
      simpa [List.map_map, Function.comp_def] using
        List.mem_map_of_mem (fun t : SearchTerm => t.term) this

theorem zipWith_add_map (q : List (SearchTerm × Nat)) (g : SearchTerm → Nat) :
    List.zipWith (fun (p w : SearchTerm × Nat) => (p.1, p.2 + w.2)) q
      (q.map (fun p => (p.1, g p.1))) = q.map (fun p => (p.1, p.2 + g p.1)) := by
  induction q with
  | nil => rfl
  | cons p rest ih => simp [ih]

theorem batchLoop_spec : ∀ (batch : List (List Char × List Char))
    (q : List (SearchTerm × Nat)), (q.map (fun p => p.1.term)).Nodup →
    batchLoop (q.map Prod.fst) batch (q.map (fun p => (p.1.term, p.2))) =
      ((batch.filter (fun r => fullMatchB (q.map Prod.fst) (pyStrip r.2))).map Prod.fst,
       q.map (fun p =>
         (p.1.term, p.2 + ((batchSeqs batch).filter (fun s => termHits p.1 s)).length)))
  | [], q, _ => by simp [batchLoop, batchSeqs]
  | r :: batch, q, hnd => by
    have hrec := recordStep_dict q (pyStrip r.2) hnd
    have hfst : (q.map (fun p => (p.1, p.2 + if termHits p.1 (pyStrip r.2) then 1 else 0))).map
        Prod.fst = q.map Prod.fst := by
      simp [List.map_map, Function.comp_def]
    have hdict : q.map (fun p => (p.1.term, p.2 + if termHits p.1 (pyStrip r.2) then 1 else 0)) =
        (q.map (fun p => (p.1, p.2 + if termHits p.1 (pyStrip r.2) then 1 else 0))).map
          (fun p => (p.1.term, p.2)) := by
      simp [List.map_map, Function.comp_def]
    have hnd2 : ((q.map (fun p => (p.1, p.2 + if termHits p.1 (pyStrip r.2) then 1 else 0))).map
        (fun p => p.1.term)).Nodup := by
      simpa [List.map_map, Function.comp_def] using hnd
    have hrest := batchLoop_spec batch
      (q.map (fun p => (p.1, p.2 + if termHits p.1 (pyStrip r.2) then 1 else 0))) hnd2
    rw [hfst] at hrest
    simp only [batchLoop, hrec, hdict, hrest]
    have hfm : fullMatchB (q.map Prod.fst) (pyStrip r.2) =
        q.all (fun p => termHits p.1 (pyStrip r.2)) := by
      simp [fullMatchB, all_fst]
    refine Prod.ext ?_ ?_
    · simp only [List.filter_cons, hfm]
      cases hA : q.all (fun p => termHits p.1 (pyStrip r.2)) <;> simp [hA]
    · simp only [List.map_map, Function.comp_def]
      refine List.map_congr_left ?_
      intro p _
      simp only [batchSeqs, List.map_cons, List.filter_cons]
      cases hB : termHits p.1 (pyStrip r.2) <;> simp [hB] <;> omega

theorem toBatchesGo_flatten : ∀ (rest : List (List Char × List Char)) (k : Nat)
    (acc : List (List Char × List Char)),
    (toBatchesGo k acc rest).flatten = acc.reverse ++ rest
  | [], k, acc => by
    by_cases h : acc.isEmpty
    · rw [List.isEmpty_iff] at h
      simp [toBatchesGo, h]
    · simp [toBatchesGo, h]
  | r :: rest, k, acc => by
    simp only [toBatchesGo]
    by_cases h : k ≤ 1
    · simp only [if_pos h, List.flatten_cons, toBatchesGo_flatten rest BATCH_SIZE []]
      simp
    · simp only [if_neg h, toBatchesGo_flatten rest (k - 1) (r :: acc)]
      simp

theorem toBatches_flatten (l : List (List Char × List Char)) : (toBatches l).flatten = l := by
  simp [toBatches, toBatchesGo_flatten]

theorem parallelAgg_spec : ∀ (bs : List (List (List Char × List Char)))
    (q : List (SearchTerm × Nat)) (f : Nat), (q.map (fun p => p.1.term)).Nodup →
    parallelAgg (q.map Prod.fst) bs (f, q) =
      (f + fullCount (q.map Prod.fst) (batchSeqs bs.flatten),
       q.map (fun p =>
         (p.1, p.2 + ((batchSeqs bs.flatten).filter (fun s => termHits p.1 s)).length)))
  | [], q, f, _ => by simp [parallelAgg, fullCount, batchSeqs]
  | b :: bs, q, f, hnd => by
    have hnd' : (((q.map Prod.fst).map (fun t => (t, (0 : Nat)))).map
        (fun p => p.1.term)).Nodup := by
      simpa [List.map_map, Function.comp_def] using hnd
    have hic : initCounts (q.map Prod.fst) =
        ((q.map Prod.fst).map (fun t => (t, (0 : Nat)))).map (fun p => (p.1.term, p.2)) := by
      rw [initCounts_nodup (q.map Prod.fst) (by simpa [List.map_map, Function.comp_def] using hnd)]
      simp [List.map_map, Function.comp_def]
    have hq0fst : ((q.map Prod.fst).map (fun t => (t, (0 : Nat)))).map Prod.fst =
        q.map Prod.fst := by
      simp [List.map_map, Function.comp_def]
    have hw := batchLoop_spec b ((q.map Prod.fst).map (fun t => (t, (0 : Nat)))) hnd'
    rw [hq0fst] at hw
    -- worker dict in the shape mergeDict_dict consumes
    have hwd : ((q.map Prod.fst).map (fun t => (t, (0 : Nat)))).map
        (fun p => (p.1.term, p.2 + ((batchSeqs b).filter (fun s => termHits p.1 s)).length)) =
        (q.map (fun p =>
          (p.1, ((batchSeqs b).filter (fun s => termHits p.1 s)).length))).map
          (fun p => (p.1.term, p.2)) := by
      simp [List.map_map, Function.comp_def]
    have hmfst : q.map Prod.fst =
        (q.map (fun p =>
          (p.1, ((batchSeqs b).filter (fun s => termHits p.1 s)).length))).map Prod.fst := by
      simp [List.map_map, Function.comp_def]
    have hmerge := mergeDict_dict q
      (q.map (fun p => (p.1, ((batchSeqs b).filter (fun s => termHits p.1 s)).length)))
      hmfst hnd
    have hzip := zipWith_add_map q
      (fun t => ((batchSeqs b).filter (fun s => termHits t s)).length)
    rw [hzip] at hmerge
    have hnd2 : ((q.map (fun p =>
        (p.1, p.2 + ((batchSeqs b).filter (fun s => termHits p.1 s)).length))).map
        (fun p => p.1.term)).Nodup := by
      simpa [List.map_map, Function.comp_def] using hnd
    have hfst2 : (q.map (fun p =>
        (p.1, p.2 + ((batchSeqs b).filter (fun s => termHits p.1 s)).length))).map
        Prod.fst = q.map Prod.fst := by
      simp [List.map_map, Function.comp_def]
    have hrest := parallelAgg_spec bs
      (q.map (fun p =>
        (p.1, p.2 + ((batchSeqs b).filter (fun s => termHits p.1 s)).length)))
      (f + (b.filter (fun r => fullMatchB (q.map Prod.fst) (pyStrip r.2))).length) hnd2
    rw [hfst2] at hrest
    simp only [parallelAgg, searchReadBatch, hic, hw, hwd, hmerge, List.length_map, hrest]
    refine Prod.ext ?_ ?_
    · simp only [List.flatten_cons, batchSeqs, List.map_append, fullCount, List.filter_append,
        List.length_append]
      have hfc : (List.filter (fullMatchB (List.map Prod.fst q))
            (List.map (fun r => pyStrip r.2) b)).length =
          (List.filter (fun r => fullMatchB (List.map Prod.fst q) (pyStrip r.2)) b).length := by
        rw [List.filter_map]
        simp [Function.comp_def]
      omega
    · simp only [List.flatten_cons, batchSeqs, List.map_append, List.filter_append,
        List.length_append, List.map_map, Function.comp_def]
      refine List.map_congr_left ?_
      intro p _
      simp only [Prod.mk.injEq, true_and]
      omega

theorem parallelRun_spec (lines : List (List Char)) (ts : List SearchTerm)
    (h4 : 4 ∣ lines.length) (hnd : (ts.map (fun t => t.term)).Nodup) :
    parallelRunCounts lines ts =
      (lines.length / 4, fullCount ts (seqLines lines), hitCounts ts (seqLines lines)) := by
  obtain ⟨recs, h1, h2, h3⟩ := readRecords_complete lines h4
  have hfst : (zeroState ts).map Prod.fst = ts := by
    simp [zeroState, List.map_map, Function.comp_def]
  have hnd0 : ((zeroState ts).map (fun p => p.1.term)).Nodup := by
    simpa [zeroState, List.map_map, Function.comp_def] using hnd
  have hagg := parallelAgg_spec (toBatches recs) (zeroState ts) 0 hnd0
  rw [hfst, toBatches_flatten recs] at hagg
  have hbs : batchSeqs recs = seqLines lines := h2
  rw [hbs] at hagg
  simp only [parallelRunCounts, h1, hagg]
  refine Prod.ext ?_ (Prod.ext ?_ ?_)
  · simpa using h3
  · simp
  · simp [zeroState, hitCounts, List.map_map, Function.comp_def]

theorem lookup_mapped_term : ∀ (ts : List SearchTerm) (g : SearchTerm → Nat) (t : SearchTerm),
    (ts.map (fun t => t.term)).Nodup → t ∈ ts →
    (ts.map (fun t' => (t'.term, g t'))).lookup t.term = some (g t)
  | [], _, t, _, h => absurd h (List.not_mem_nil t)
  | t0 :: ts, g, t, hnd, hmem => by
    simp only [List.map_cons, List.nodup_cons] at hnd
    rcases List.mem_cons.mp hmem with rfl | hmem'
    · simp [List.lookup]
    · have hne : t.term ≠ t0.term := by
        intro he
        exact hnd.1 (he ▸ List.mem_map_of_mem (fun t => t.term) hmem')
      simp only [List.map_cons, List.lookup, beq_eq_false_iff_ne.mpr hne]
      exact lookup_mapped_term ts g t hnd.2 hmem'

/-- C1 (amended): for every record and every non-empty configured term list
whose term strings are pairwise distinct, the worker classifies the record as
a full match iff every term has at least one compiled pattern finding an
occurrence in the (stripped) sequence (OR across a term's own patterns, AND
across terms), and each term's hit counter ends at exactly 1 when the term
hits and 0 otherwise — one increment per record however many patterns or
occurrences matched.  The sequential engine's per-entry counters behave the
same way.  (With duplicated term strings the worker's dict shares one counter
across the duplicates, see the counterexample.) -/
theorem matching_engine_record (ts : List SearchTerm) (s : List Char)
    (hne : ts ≠ []) (hnd : (ts.map (fun t => t.term)).Nodup) :
    (recordStep ts s (initCounts ts)).1 =
      ts.all (fun t => t.patterns.any (fun p => patSearch p s)) ∧
    (∀ t ∈ ts, (recordStep ts s (initCounts ts)).2.lookup t.term =
      some (if termHits t s then 1 else 0)) ∧
    seqStepTerms s (zeroState ts) =
      (ts.all (fun t => t.patterns.any (fun p => patSearch p s)),
       ts.map (fun t => (t, if termHits t s then 1 else 0))) := by
  have hnd0 : ((zeroState ts).map (fun p => p.1.term)).Nodup := by
    simpa [zeroState, List.map_map, Function.comp_def] using hnd
  have hfst : (zeroState ts).map Prod.fst = ts := by
    simp [zeroState, List.map_map, Function.comp_def]
  have hic : initCounts ts = (zeroState ts).map (fun p => (p.1.term, p.2)) := by
    rw [initCounts_nodup ts hnd]
    simp [zeroState, List.map_map, Function.comp_def]
  have hrs := recordStep_dict (zeroState ts) s hnd0
  rw [hfst, ← hic] at hrs
  have hmap : (zeroState ts).map
      (fun p => (p.1.term, p.2 + if termHits p.1 s then 1 else 0)) =
      ts.map (fun t' => (t'.term, if termHits t' s then 1 else 0)) := by
    simp [zeroState, List.map_map, Function.comp_def]
  refine ⟨?_, ?_, ?_⟩
  · rw [hrs]
    simp only [zeroState, all_zero_map]
    rfl
  · intro t ht
    rw [hrs]
    simp only [hmap]
    exact lookup_mapped_term ts (fun t' => if termHits t' s then 1 else 0) t hnd ht
  · rw [seqStepTerms_spec]
    refine Prod.ext ?_ ?_
    · simp only [zeroState, all_zero_map]
      rfl
    · simp [zeroState, List.map_map, Function.comp_def]

/-- Witness for C1 at the two-term configuration `AC`, `GT` on record `ACGT`. -/
theorem matching_engine_record_witness :
    (exTermsTwo ≠ [] ∧ (exTermsTwo.map (fun t => t.term)).Nodup) ∧
    ((recordStep exTermsTwo "ACGT".data (initCounts exTermsTwo)).1 =
      exTermsTwo.all (fun t => t.patterns.any (fun p => patSearch p "ACGT".data)) ∧
    (∀ t ∈ exTermsTwo, (recordStep exTermsTwo "ACGT".data (initCounts exTermsTwo)).2.lookup
      t.term = some (if termHits t "ACGT".data then 1 else 0)) ∧
    seqStepTerms "ACGT".data (zeroState exTermsTwo) =
      (exTermsTwo.all (fun t => t.patterns.any (fun p => patSearch p "ACGT".data)),
       exTermsTwo.map (fun t => (t, if termHits t "ACGT".data then 1 else 0)))) :=
  ⟨⟨by decide, by decide⟩,
   matching_engine_record exTermsTwo "ACGT".data (by decide) (by decide)⟩

/-- C1 counterexample: configure the same raw term `ACGT` twice (legal via two
different colour flags).  On the single record `ACGT` the worker's shared dict
counter for the term string rises to 2, not "exactly once". -/
theorem duplicate_terms_counter_increments_twice :
    ((recordStep [exTermACGT, exTermACGT] "ACGT".data
        (initCounts [exTermACGT, exTermACGT])).2.lookup "ACGT".data = some 2) ∧
    ¬ ((recordStep [exTermACGT, exTermACGT] "ACGT".data
        (initCounts [exTermACGT, exTermACGT])).2.lookup "ACGT".data = some 1) := by
  decide

/-- C4 (amended): provided the archive consists of whole 4-line quadruples and
the configured term strings are pairwise distinct, both strategies satisfy
totalFullMatches ≤ totalRecordsProcessed and, for every term, its hit count
≤ totalRecordsProcessed. -/
theorem aggregate_count_invariants (lines : List (List Char)) (ts : List SearchTerm)
    (h4 : 4 ∣ lines.length) (hnd : (ts.map (fun t => t.term)).Nodup) :
    ((seqRunCounts lines ts).2.1 ≤ (seqRunCounts lines ts).1 ∧
      ∀ c ∈ (seqRunCounts lines ts).2.2, c ≤ (seqRunCounts lines ts).1) ∧
    ((parallelRunCounts lines ts).2.1 ≤ (parallelRunCounts lines ts).1 ∧
      ∀ c ∈ (parallelRunCounts lines ts).2.2, c ≤ (parallelRunCounts lines ts).1) := by
  have h1 : fullCount ts (seqLines lines) ≤ lines.length / 4 :=
    le_of_le_of_eq (List.length_filter_le _ _) (seqLines_length lines)
  have h2 : ∀ c ∈ hitCounts ts (seqLines lines), c ≤ lines.length / 4 := by
    intro c hc
    simp only [hitCounts, List.mem_map] at hc
    obtain ⟨t, _, rfl⟩ := hc
    exact le_of_le_of_eq (List.length_filter_le _ _) (seqLines_length lines)
  rw [seqRun_spec lines ts h4, parallelRun_spec lines ts h4 hnd]
  exact ⟨⟨h1, h2⟩, ⟨h1, h2⟩⟩

/-- Witness for C4 at the two-record archive and the single term `ACGT`. -/
theorem aggregate_count_invariants_witness :
    (4 ∣ exLines8.length ∧ (([exTermACGT].map (fun t => t.term)).Nodup)) ∧
    (((seqRunCounts exLines8 [exTermACGT]).2.1 ≤ (seqRunCounts exLines8 [exTermACGT]).1 ∧
      ∀ c ∈ (seqRunCounts exLines8 [exTermACGT]).2.2,
        c ≤ (seqRunCounts exLines8 [exTermACGT]).1) ∧
    ((parallelRunCounts exLines8 [exTermACGT]).2.1 ≤
        (parallelRunCounts exLines8 [exTermACGT]).1 ∧
      ∀ c ∈ (parallelRunCounts exLines8 [exTermACGT]).2.2,
        c ≤ (parallelRunCounts exLines8 [exTermACGT]).1)) :=
  ⟨⟨by decide, by decide⟩,
   aggregate_count_invariants exLines8 [exTermACGT] (by decide) (by decide)⟩

/-- C4 counterexample: on the truncated two-line archive the sequential
strategy still matches the dangling sequence line but reports
`line_number // 4 = 0` records processed, so totalFullMatches = 1 exceeds
totalRecordsProcessed = 0 (and so does the term's hit count). -/
theorem truncated_archive_violates_invariant :
    seqRunCounts exLines2 [exTermACGT] = (0, 1, [1]) ∧ ¬ ((1 : Nat) ≤ (0 : Nat)) := by
  decide

/-- C5 (amended): on archives made of whole 4-line quadruples and with
pairwise-distinct configured term strings, the sequential-streaming and the
parallel-batch strategies produce identical total-processed, total-full-match
and per-term hit counts. -/
theorem strategies_agree (lines : List (List Char)) (ts : List SearchTerm)
    (h4 : 4 ∣ lines.length) (hnd : (ts.map (fun t => t.term)).Nodup) :
    seqRunCounts lines ts = parallelRunCounts lines ts := by
  rw [seqRun_spec lines ts h4, parallelRun_spec lines ts h4 hnd]

/-- Witness for C5 at the two-record archive and the single term `ACGT`. -/
theorem strategies_agree_witness :
    (4 ∣ exLines8.length ∧ (([exTermACGT].map (fun t => t.term)).Nodup)) ∧
    seqRunCounts exLines8 [exTermACGT] = parallelRunCounts exLines8 [exTermACGT] :=
  ⟨⟨by decide, by decide⟩, strategies_agree exLines8 [exTermACGT] (by decide) (by decide)⟩

/-- C5 counterexample: on a six-line archive (one complete quadruple plus a
truncated two-line record) the sequential strategy reports 1 record processed
while the parallel strategy reports 2, so the two aggregate-count functions
differ. -/
theorem strategies_differ_on_truncated_archive :
    seqRunCounts exLines6 [exTermACGT] = (1, 2, [2]) ∧
    parallelRunCounts exLines6 [exTermACGT] = (2, 2, [2]) ∧
    seqRunCounts exLines6 [exTermACGT] ≠ parallelRunCounts exLines6 [exTermACGT] := by
  decide

/-- C6 (amended): when the stream terminates with 2 or 3 lines remaining, the
batch Record Reader does not discard them — it produces one extra record out
of the trailing header/sequence pair (`⌊n/4⌋ + 1` records in total).  (With
exactly one trailing line it raises instead, and in the sequential strategy a
trailing sequence line still feeds the matcher; see the other theorems.) -/
theorem reader_trailing_lines : ∀ lines : List (List Char),
    lines.length % 4 = 2 ∨ lines.length % 4 = 3 →
    ∃ recs, readRecords lines = some recs ∧ recs.length = lines.length / 4 + 1
  | [], h => by simp at h
  | [a], h => by simp at h
  | [a, b], _ => ⟨[(headerId a, b)], by simp [readRecords], by simp⟩
  | [a, b, c], _ => ⟨[(headerId a, b)], by simp [readRecords], by simp⟩
  | a :: b :: c :: d :: rest, h => by
    have h' : rest.length % 4 = 2 ∨ rest.length % 4 = 3 := by
      simp only [List.length_cons] at h
      omega
    obtain ⟨recs, h1, h2⟩ := reader_trailing_lines rest h'
    refine ⟨(headerId a, b) :: recs, by simp [readRecords, h1], ?_⟩
    simp only [List.length_cons, h2]
    omega

/-- Witness for C6 at the concrete two-line truncated archive. -/
theorem reader_trailing_lines_witness :
    (exLines2.length % 4 = 2 ∨ exLines2.length % 4 = 3) ∧
    ∃ recs, readRecords exLines2 = some recs ∧ recs.length = exLines2.length / 4 + 1 :=
  ⟨by decide, reader_trailing_lines exLines2 (by decide)⟩

/-- C6 counterexample: a stream ending with the two lines `@r x` and `ACGT`
makes the Record Reader emit a record for them — the trailing lines are not
silently discarded. -/
theorem trailing_lines_produce_record :
    readRecords ["@r x\n".data, "ACGT\n".data] = some [("@r".data, "ACGT\n".data)] ∧
    readRecords ["@r x\n".data, "ACGT\n".data] ≠ some [] := by
  decide

theorem toBatches_singleton (r : List Char × List Char) : toBatches [r] = [[r]] := by
  simp [toBatches, toBatchesGo, BATCH_SIZE]

theorem seqRunCounts_header_irrelevant (x y s p q : List Char) (ts : List SearchTerm) :
    seqRunCounts [x, s, p, q] ts = seqRunCounts [y, s, p, q] ts := by
  simp [seqRunCounts, seqLoop]

theorem parallelRunCounts_header_irrelevant (x y s p q : List Char)
    (ts : List SearchTerm) :
    parallelRunCounts [x, s, p, q] ts = parallelRunCounts [y, s, p, q] ts := by
  have hx : readRecords [x, s, p, q] = some [(headerId x, s)] := by simp [readRecords]
  have hy : readRecords [y, s, p, q] = some [(headerId y, s)] := by simp [readRecords]
  simp only [parallelRunCounts, hx, hy, toBatches_singleton]
  simp only [parallelAgg, searchReadBatch, batchLoop]
  cases hp : (recordStep ts (pyStrip s) (initCounts ts)).1 <;> simp [hp]

/-- C7 (amended): a quadruple whose (stripped) header line does not begin with
the record marker is NOT skipped.  The batch reader still yields a record for
it — under the identifier `"Unknown"` — and both strategies process its
sequence line exactly as they would a well-formed record's, so it contributes
to term counters and the full-match count; only the reported identifier
differs. -/
theorem bad_header_quadruple_processed (hdr sq pl ql : List Char) (ts : List SearchTerm)
    (hbad : ¬ (pyStrip hdr).head? = some '@') :
    readRecords [hdr, sq, pl, ql] = some [("Unknown".data, sq)] ∧
    seqRunCounts [hdr, sq, pl, ql] ts = seqRunCounts ["@r\n".data, sq, pl, ql] ts ∧
    parallelRunCounts [hdr, sq, pl, ql] ts =
      parallelRunCounts ["@r\n".data, sq, pl, ql] ts :=
  ⟨by simp [readRecords, headerId, hbad],
   seqRunCounts_header_irrelevant hdr "@r\n".data sq pl ql ts,
   parallelRunCounts_header_irrelevant hdr "@r\n".data sq pl ql ts⟩

/-- Witness for C7 at the malformed header `xyz`. -/
theorem bad_header_quadruple_processed_witness :
    (¬ (pyStrip "xyz\n".data).head? = some '@') ∧
    (readRecords ["xyz\n".data, "ACGT\n".data, "+\n".data, "IIII\n".data] =
      some [("Unknown".data, "ACGT\n".data)] ∧
    seqRunCounts ["xyz\n".data, "ACGT\n".data, "+\n".data, "IIII\n".data] [exTermACGT] =
      seqRunCounts ["@r\n".data, "ACGT\n".data, "+\n".data, "IIII\n".data] [exTermACGT] ∧
    parallelRunCounts ["xyz\n".data, "ACGT\n".data, "+\n".data, "IIII\n".data]
        [exTermACGT] =
      parallelRunCounts ["@r\n".data, "ACGT\n".data, "+\n".data, "IIII\n".data]
        [exTermACGT]) :=
  ⟨by decide,
   bad_header_quadruple_processed "xyz\n".data "ACGT\n".data "+\n".data "IIII\n".data
     [exTermACGT] (by decide)⟩

/-- C7 counterexample: an archive holding a single quadruple with the
malformed header `xyz` (no `@` marker) still yields 1 record processed, 1 full
match and a term hit count of 1 in both strategies — the claim predicts it
contributes to no counters. -/
theorem bad_header_quadruple_counted :
    (¬ (pyStrip "xyz\n".data).head? = some '@') ∧
    seqRunCounts ["xyz\n".data, "ACGT\n".data, "+\n".data, "IIII\n".data] [exTermACGT] =
      (1, 1, [1]) ∧
    parallelRunCounts ["xyz\n".data, "ACGT\n".data, "+\n".data, "IIII\n".data]
      [exTermACGT] = (1, 1, [1]) ∧
    ¬ ((1 : Nat) = (0 : Nat)) := by
  decide

/-- C8: on a missing input path both strategies report the error, process zero
records, find zero matches and leave every term counter at zero — the
`except FileNotFoundError` handlers return `(0, 0)` before any matching work. -/
theorem missing_input_reports_error_no_processing (ts : List SearchTerm) :
    seqRunFile none ts = ((0, 0, ts.map (fun _ => 0)), true) ∧
    parallelRunFile none ts = ((0, 0, ts.map (fun _ => 0)), true) :=
  ⟨rfl, rfl⟩

/-- C9 (amended): targets are normalized by dropping a leading `@` and a
trailing `/1`/`/2`; the output maps each original `@`-prefixed identifier to
the first discovered `barcode=` value, defaulting to `NA` both when the
identifier is never found and when its record carries no tag (the originating
archive filename is never written).  The spec scenario holds: for targets
`read1/1` and `read2` and a record headered `@read1/1 extra barcode=XYZ`,
the row for `@read1` carries `XYZ` and `@read2` stays `NA`. -/
theorem id_lookup_scenario :
    loadTargets ["read1/1\n".data, "read2\n".data] = ["read1".data, "read2".data] ∧
    normalizeTarget "@x/2".data = "x".data ∧
    (search_barcodes ["read1/1\n".data, "read2\n".data]
        [("a.fastq.gz".data,
          ["@read1/1 extra barcode=XYZ\n".data, "ACGT\n".data, "+\n".data,
           "IIII\n".data])]).map
      (fun rows => (rows.lookup "@read1".data, rows.lookup "@read2".data)) =
      some (some "XYZ".data, some "NA".data) := by
  decide

/-- C9 counterexample: the identifier `read3` IS found — the remaining-target
set empties — but its record carries no `barcode=` tag, and the written value
is `NA`, not the originating archive filename `f.fastq.gz` that the claim
prescribes for discovered identifiers without a tag value. -/
theorem found_without_tag_gets_NA :
    search_barcodes ["read3\n".data]
        [("f.fastq.gz".data,
          ["@read3\n".data, "ACGT\n".data, "+\n".data, "IIII\n".data])] =
      some [("@read3".data, "NA".data)] ∧
    (scanFiles [("f.fastq.gz".data,
        ["@read3\n".data, "ACGT\n".data, "+\n".data, "IIII\n".data])]
      [("read3".data, "NA".data)] ["read3".data]).2 = [] ∧
    "NA".data ≠ "f.fastq.gz".data := by
  decide

/-- C10: when every line of the target-identifier file strips to the empty
string, no identifiers are loaded and `search_barcodes` takes the early
return (after its warning print) without writing any output file — it does
not produce an empty table. -/
theorem no_targets_no_output (idLines : List (List Char))
    (files : List (List Char × List (List Char)))
    (h : ∀ l ∈ idLines, pyStrip l = []) :
    search_barcodes idLines files = none := by
  have hfm : idLines.filterMap (fun l =>
      let t := pyStrip l
      if t.isEmpty then none else some (normalizeTarget t)) = [] := by
    rw [List.filterMap_eq_nil]
    intro l hl
    simp [h l hl]
  have ht : loadTargets idLines = [] := by
    unfold loadTargets
    rw [hfm]
    rfl
  simp [search_barcodes, ht]

/-- Witness for C10 at a target file of one empty and one whitespace line. -/
theorem no_targets_no_output_witness :
    (∀ l ∈ [("".data : List Char), "  \n".data], pyStrip l = []) ∧
    search_barcodes ["".data, "  \n".data] [] = none :=
  ⟨by decide, no_targets_no_output ["".data, "  \n".data] [] (by decide)⟩

end SeqGrep
